import Mathlib

/-!
Verification development for the USB-Disconnector repository
(`USB_Disconnector_2.0.py`).  The definitions below are a shallow
embedding of the pure core of the program: the VID/PID extraction
(`extract_vid_pid`), the status classification in `get_device_status`,
the device-directory construction in
`get_input_devices_by_instance_id_pattern`, the name-override store
(`load_device_database`, `save_device_database`,
`UsbDeviceControllerApp._save_custom_name`) and the re-selection policy
in `UsbDeviceControllerApp._update_populate_gui`.

External effects (the PowerShell calls, the file system, Tkinter) are
modelled by explicit parameters: the already-decoded record list stands
for the parsed JSON output, a `Bool` flag stands for whether the file
write succeeds, and an inductive `FileContent` stands for the state of
the JSON database file.  Python strings are Lean `String`s; Python
`None` for optional string fields is `Option.none`; Python truthiness
on strings is modelled explicitly (`none` and `""` are falsy).
-/

namespace USBDisc

/-- Python truthiness of an optional string: `None` and `""` are falsy. -/
def truthy : Option String → Bool
  | none => false
  | some s => s ≠ ""

/-- The Python `str.strip()` method with no argument: remove whitespace from both
ends (computed on the character list). -/
def pyStrip (s : String) : String :=
  String.mk (((s.toList.dropWhile Char.isWhitespace).reverse.dropWhile
    Char.isWhitespace).reverse)

/-- The Python `str.upper()` method (per-character, ASCII behaviour). -/
def pyUpper (s : String) : String :=
  String.mk (s.toList.map Char.toUpper)

/-- The Python `str.lower()` method (per-character, ASCII behaviour). -/
def pyLower (s : String) : String :=
  String.mk (s.toList.map Char.toLower)

/-- Membership of `needle` in `hay` as a contiguous run, mirroring
the Python `in` operator on strings (checked on character lists). -/
def listContains (needle : List Char) : List Char → Bool
  | [] => needle.isEmpty
  | c :: t => needle.isPrefixOf (c :: t) || listContains needle t

/-- The character class `[0-9A-Fa-f]` of the regular expression in
`extract_vid_pid`. -/
def isHexChar (c : Char) : Bool :=
  c.isDigit || ('A' ≤ c && c ≤ 'F') || ('a' ≤ c && c ≤ 'f')

/-- Case-insensitive match of one subject character `c` against one
pattern letter `t`, as under `re.IGNORECASE`. -/
def charIC (c t : Char) : Bool :=
  c.toUpper == t.toUpper

/-- Attempt to match `(t0)(t1)(t2)_([0-9A-Fa-f]{4})` at the head of the
character list, returning the four captured digit characters.
Instantiated with `V I D` and `P I D` this is the pattern of
`extract_vid_pid` anchored at one position. -/
def matchKeyAt (t0 t1 t2 : Char) : List Char → Option (List Char)
  | a :: b :: c :: u :: d1 :: d2 :: d3 :: d4 :: _ =>
    if charIC a t0 && charIC b t1 && charIC c t2 && u == '_' &&
        isHexChar d1 && isHexChar d2 && isHexChar d3 && isHexChar d4 then
      some [d1, d2, d3, d4]
    else
      none
  | _ => none

/-- Model of `re.search` for the pattern above: try every start position from the
left, return the captured group of the first (leftmost) match. -/
def searchKey (t0 t1 t2 : Char) : List Char → Option (List Char)
  | [] => none
  | c :: t =>
    match matchKeyAt t0 t1 t2 (c :: t) with
    | some g => some g
    | none => searchKey t0 t1 t2 t

/-- Function `extract_vid_pid` (source lines 74-85): search the string for
`VID_` and, independently, `PID_` each followed by exactly four hex
digits, case-insensitively; return each captured group upper-cased, or
`none` for each side that has no match. -/
def extract_vid_pid (s : String) : Option String × Option String :=
  let cs := s.toList
  let vid := (searchKey 'V' 'I' 'D' cs).map fun g => String.mk (g.map Char.toUpper)
  let pid := (searchKey 'P' 'I' 'D' cs).map fun g => String.mk (g.map Char.toUpper)
  (vid, pid)

/-- The `if vid and pid` packaging every caller of `extract_vid_pid`
applies: the extracted key is available exactly when both halves are
(truthily) present. -/
def extractKey (s : String) : Option (String × String) :=
  match extract_vid_pid s with
  | (some v, some p) =>
    if truthy (some v) && truthy (some p) then some (v, p) else none
  | _ => none

/-- The tri-state device status of the specification. -/
inductive DeviceStatus where
  | enabled
  | disabled
  | unknown
  deriving Repr, DecidableEq

/-- The decision core of `get_device_status` (source lines 227-242),
applied to an already-decoded property record.  `present` models the
`Present` field (`none` when absent), `errorCode` the
`ConfigManagerErrorCode` field already converted by `str(...)` and
`statusText` the `Status` field likewise; a missing field becomes `""`
through `device_props.get(..., "")`. -/
def classifyStatus (present : Option Bool) (errorCode statusText : Option String) :
    DeviceStatus :=
  if present = some false then .disabled
  else
    let cme := pyStrip (errorCode.getD "")
    let st := pyUpper (pyStrip (statusText.getD ""))
    if cme = "22" then .disabled
    else if cme = "0" then .enabled
    else if listContains ['O', 'K'] st.toList then .enabled
    else .unknown

/-! ### The name-override store (`device_names.json`) -/

/-- The in-memory device-name database: a Python `dict` mapping
`"VID:PID"` strings to names, modelled as an association list in
insertion order with unique keys. -/
abbrev Store := List (String × String)

/-- Lookup, as in `db.get(key)` and `db[key]`. -/
def dbGet : Store → String → Option String
  | [], _ => none
  | (k, v) :: t, key => if k = key then some v else dbGet t key

/-- Assignment `db[key] = v`: replace the value in place when the key exists
(keeping its position, as a Python `dict` does), else append. -/
def dbInsert : Store → String → String → Store
  | [], key, v => [(key, v)]
  | (k, w) :: t, key, v =>
    if k = key then (key, v) :: t else (k, w) :: dbInsert t key v

/-- Deletion `del db[key]`: remove the entry for `key`. -/
def dbErase : Store → String → Store
  | [], _ => []
  | (k, w) :: t, key => if k = key then t else (k, w) :: dbErase t key

/-- State of the `device_names.json` file as seen by
`load_device_database`: absent, present but not decodable JSON, present
but unreadable (any other exception), or decoding to a mapping. -/
inductive FileContent where
  | missing
  | badJson
  | readError
  | good (db : Store)

/-- Function `load_device_database` (source lines 47-62): return the decoded
mapping when the file exists and decodes; return the empty mapping when
the file is absent, when `json.load` raises `JSONDecodeError`, or when
any other exception occurs.  Total by construction: every branch
returns a store. -/
def load_device_database : FileContent → Store
  | .missing => []
  | .badJson => []
  | .readError => []
  | .good db => db

/-- Outcome of `save_device_database` (source lines 64-72) as seen by
its caller.  `persisted` is the durable content after the call (`some`
of the written store on success, `none` when the write failed);
`raised` is the exception propagated to the caller — the
`except` clause of the function catches every exception and only prints it, so this is
`none` on both paths. -/
structure SaveOutcome where
  persisted : Option Store
  raised : Option String
  deriving DecidableEq

/-- Function `save_device_database`, with the success of the underlying file
write supplied as the `writeOk` parameter. -/
def save_device_database (db : Store) (writeOk : Bool) : SaveOutcome :=
  if writeOk then ⟨some db, none⟩ else ⟨none, none⟩

/-- Result of `UsbDeviceControllerApp._save_custom_name`: the in-memory
database after the call, what reached durable storage, and the error
reported to the caller. -/
structure SaveNameResult where
  db : Store
  persisted : Option Store
  err : Option String
  deriving DecidableEq

/-- Method `_save_custom_name` (source lines 733-749): a non-empty name is
stored under the key; an empty name removes an existing entry; when the
name is empty and no entry exists the method returns without touching
the database or the file.  On the first two paths the updated database
is handed to `save_device_database`; the in-memory mutation happens
before the save and is never rolled back. -/
def saveCustomName (db : Store) (deviceKey newName : String) (writeOk : Bool) :
    SaveNameResult :=
  if newName ≠ "" then
    let db2 := dbInsert db deviceKey newName
    let o := save_device_database db2 writeOk
    ⟨db2, o.persisted, o.raised⟩
  else if (dbGet db deviceKey).isSome then
    let db2 := dbErase db deviceKey
    let o := save_device_database db2 writeOk
    ⟨db2, o.persisted, o.raised⟩
  else ⟨db, none, none⟩

/-- The in-memory effect of one override edit as issued by the edit
dialog (`save_and_close`, source lines 714-717): the entered name is
stripped before `_save_custom_name` runs; an absent name is the empty
entry text. -/
def setOverride (db : Store) (deviceKey : String) (name : Option String) : Store :=
  (saveCustomName db deviceKey (pyStrip (name.getD "")) true).db

/-! ### The device directory -/

/-- One decoded record of the `Get-PnpDevice` JSON output, after the
collaborator layer has normalised `HardwareId` to a list (source lines
328-332).  A missing `InstanceId` is modelled as `""` (both `None` and
`""` are falsy and such records never reach the output list). -/
structure RawDeviceRecord where
  instanceId : String
  friendlyName : Option String
  description : Option String
  hardwareIds : List String
  deriving DecidableEq, Repr

/-- The `for hwid_entry in hardware_ids` loop (source lines 342-345):
each entry overwrites the running `(vid, pid)` pair and the loop breaks
at the first entry yielding both halves. -/
def hwLoop : Option String × Option String → List String → Option String × Option String
  | vp, [] => vp
  | _, h :: t =>
    let vp2 := extract_vid_pid h
    if truthy vp2.1 && truthy vp2.2 then vp2 else hwLoop vp2 t

/-- The `(vid, pid)` state after source lines 334-338: extracted from
the instance identifier when the latter is truthy, else still
`(None, None)`. -/
def instVidPid (r : RawDeviceRecord) : Option String × Option String :=
  if r.instanceId ≠ "" then extract_vid_pid r.instanceId else (none, none)

/-- The `(vid, pid)` state after source lines 334-345: the hardware-id
loop runs when the instance identifier did not give both halves and the
list is non-empty (`if not (vid and pid) and hardware_ids:`). -/
def computeVidPid (r : RawDeviceRecord) : Option String × Option String :=
  if !(truthy (instVidPid r).1 && truthy (instVidPid r).2) && !r.hardwareIds.isEmpty then
    hwLoop (instVidPid r) r.hardwareIds
  else instVidPid r

/-- The expression `f"{vid}:{pid}" if (vid and pid) else None` of
source line 347, as a function of the `(vid, pid)` state. -/
def keyOfPair (vp : Option String × Option String) : Option String :=
  if truthy vp.1 && truthy vp.2 then
    some ((vp.1.getD "") ++ ":" ++ (vp.2.getD ""))
  else none

/-- Expression `device_key` (source line 347): the `"VID:PID"` string when both
halves were found, else `none`. -/
def device_key (r : RawDeviceRecord) : Option String :=
  keyOfPair (computeVidPid r)

/-- One entry of the `devices_list` (source lines 347-371). -/
structure DeviceEntry where
  display_name : String
  id : String
  hardware_id : List String
  vid_pid_key : Option String
  full_info : RawDeviceRecord
  deriving DecidableEq, Repr

/-- The per-record body of the enumeration loop (source lines 347-371):
custom name from the database when the key exists and maps to a truthy
name, else `FriendlyName or DeviceDescription or instance_id` with
Python truthiness; the `[VID:PID]` suffix is appended whenever the key
exists. -/
def entryOf (db : Store) (r : RawDeviceRecord) : DeviceEntry :=
  let key := device_key r
  let custom := key.bind fun k => dbGet db k
  let base :=
    if truthy custom then custom.getD ""
    else if truthy r.friendlyName then r.friendlyName.getD ""
    else if truthy r.description then r.description.getD ""
    else r.instanceId
  let dn :=
    match key with
    | some k => base ++ " [" ++ k ++ "]"
    | none => base
  ⟨dn, r.instanceId, r.hardwareIds, key, r⟩

/-- The enumeration loop (source lines 318-371): skip records whose
instance identifier was already seen, record the identifier as seen,
and append an entry only when the identifier is truthy. -/
def buildLoop (db : Store) : List RawDeviceRecord → List String → List DeviceEntry
  | [], _ => []
  | r :: rest, seen =>
    if r.instanceId ∈ seen then buildLoop db rest seen
    else if r.instanceId ≠ "" then
      entryOf db r :: buildLoop db rest (r.instanceId :: seen)
    else buildLoop db rest (r.instanceId :: seen)

/-- Lexicographic comparison of character lists by code point, the
order Python uses to compare strings. -/
def lexLE : List Char → List Char → Bool
  | [], _ => true
  | _ :: _, [] => false
  | a :: s, b :: t => if a < b then true else if b < a then false else lexLE s t

/-- The sort key of source line 391: `x["display_name"].lower()`. -/
def nameKey (e : DeviceEntry) : List Char :=
  e.display_name.toList.map Char.toLower

/-- The comparison underlying `list.sort(key=lambda x:
x["display_name"].lower())`: keys compared lexicographically. -/
def entLE (a b : DeviceEntry) : Prop :=
  lexLE (nameKey a) (nameKey b) = true

instance : DecidableRel entLE := fun a b =>
  inferInstanceAs (Decidable (lexLE (nameKey a) (nameKey b) = true))

/-- Function `get_input_devices_by_instance_id_pattern` restricted to its pure
part (source lines 309-392): the records stand for the decoded JSON
list, and `list.sort(key=...)` — a stable sort by the lower-cased
display name — is modelled by insertion sort with the non-strict key
order, which is stable. -/
def buildDirectory (records : List RawDeviceRecord) (db : Store) : List DeviceEntry :=
  List.insertionSort entLE (buildLoop db records [])

/-- The re-selection policy of `_update_populate_gui` (source lines
523-554): when the previous identifier is truthy and still present,
select the first entry carrying it; otherwise the first entry of a
non-empty list; otherwise nothing. -/
def selectDevice (dir : List DeviceEntry) (prev : Option String) : Option DeviceEntry :=
  if truthy prev && dir.any (fun d => d.id == prev.getD "") then
    dir.find? (fun d => d.id == prev.getD "")
  else if !dir.isEmpty then dir.head?
  else none

/-- Key derivation as the specification words it (§3, §4.1): apply
`extractKey` to the instance identifier first and, only if that yields
no pair, to each hardware identifier in listed order, stopping at the
first success.  Stated for comparison with `device_key`. -/
def specDeriveKey (r : RawDeviceRecord) : Option (String × String) :=
  match extractKey r.instanceId with
  | some k => some k
  | none => r.hardwareIds.findSome? extractKey

/-- Display-name selection as the specification words it (§3): the
override name when the store has one for the key, else the friendly
name, else the description, else the instance identifier; the key
appended in bracketed form when it exists.  Stated for comparison with
`entryOf`. -/
def specDisplayName (db : Store) (r : RawDeviceRecord) : String :=
  let key := device_key r
  let base :=
    match key.bind fun k => dbGet db k with
    | some nm => nm
    | none =>
      match r.friendlyName with
      | some f => f
      | none =>
        match r.description with
        | some d => d
        | none => r.instanceId
  match key with
  | some k => base ++ " [" ++ k ++ "]"
  | none => base

/-- The statement "the string contains, anywhere, a case-insensitive
`(t0)(t1)(t2)_` followed by exactly four hex digits", written as an
explicit decomposition of the character list — the semantics of the
regular expression searched by `extract_vid_pid`. -/
def HasKeyPattern (t0 t1 t2 : Char) (s : String) : Prop :=
  ∃ (pre : List Char) (a b c d1 d2 d3 d4 : Char) (post : List Char),
    s.toList = pre ++ a :: b :: c :: '_' :: d1 :: d2 :: d3 :: d4 :: post ∧
    charIC a t0 = true ∧ charIC b t1 = true ∧ charIC c t2 = true ∧
    isHexChar d1 = true ∧ isHexChar d2 = true ∧ isHexChar d3 = true ∧
    isHexChar d4 = true

/-!
## Theorems

Helper lemmas first, then one theorem per claim (with witnesses and
counterexamples where called for).
-/

theorem dbGet_dbInsert_self (db : Store) (k v : String) :
    dbGet (dbInsert db k v) k = some v := by
  induction db with
  | nil => simp [dbInsert, dbGet]
  | cons p t ih =>
    obtain ⟨k2, w⟩ := p
    by_cases h : k2 = k
    · subst h
      simp [dbInsert, dbGet]
    · simp [dbInsert, dbGet, h, ih]

theorem dbGet_mem {db : Store} {k v : String} (h : dbGet db k = some v) :
    (k, v) ∈ db := by
  induction db with
  | nil => simp [dbGet] at h
  | cons p t ih =>
    obtain ⟨k2, w⟩ := p
    by_cases hk : k2 = k
    · subst hk
      simp [dbGet] at h
      simp [h]
    · simp [dbGet, hk] at h
      exact List.mem_cons_of_mem _ (ih h)

theorem dbGet_eq_none_of_not_mem {db : Store} {k : String}
    (h : k ∉ db.map Prod.fst) : dbGet db k = none := by
  induction db with
  | nil => rfl
  | cons p t ih =>
    obtain ⟨k2, w⟩ := p
    simp only [List.map_cons, List.mem_cons, not_or] at h
    have hne : k2 ≠ k := fun hh => h.1 hh.symm
    simp [dbGet, hne, ih h.2]

theorem dbErase_of_dbGet_none {db : Store} {k : String}
    (h : dbGet db k = none) : dbErase db k = db := by
  induction db with
  | nil => rfl
  | cons p t ih =>
    obtain ⟨k2, w⟩ := p
    by_cases hk : k2 = k
    · subst hk
      simp [dbGet] at h
    · simp [dbGet, hk] at h
      simp [dbErase, hk, ih h]

theorem dbGet_dbErase_self {db : Store} (k : String)
    (h : (db.map Prod.fst).Nodup) : dbGet (dbErase db k) k = none := by
  induction db with
  | nil => rfl
  | cons p t ih =>
    obtain ⟨k2, w⟩ := p
    simp only [List.map_cons, List.nodup_cons] at h
    by_cases hk : k2 = k
    · subst hk
      simpa [dbErase] using dbGet_eq_none_of_not_mem h.1
    · simp [dbErase, hk, dbGet, ih h.2]

theorem mem_dbInsert {db : Store} {k v : String} {p : String × String}
    (h : p ∈ dbInsert db k v) : p = (k, v) ∨ p ∈ db := by
  induction db with
  | nil => simpa [dbInsert] using h
  | cons q t ih =>
    obtain ⟨k2, w⟩ := q
    by_cases hk : k2 = k
    · subst hk
      simp [dbInsert] at h
      rcases h with h | h
      · exact Or.inl h
      · exact Or.inr (List.mem_cons_of_mem _ h)
    · simp [dbInsert, hk] at h
      rcases h with h | h
      · exact Or.inr (by simp [h])
      · rcases ih h with h2 | h2
        · exact Or.inl h2
        · exact Or.inr (List.mem_cons_of_mem _ h2)

theorem mem_dbErase {db : Store} {k : String} {p : String × String}
    (h : p ∈ dbErase db k) : p ∈ db := by
  induction db with
  | nil => simp [dbErase] at h
  | cons q t ih =>
    obtain ⟨k2, w⟩ := q
    by_cases hk : k2 = k
    · subst hk
      simp [dbErase] at h
      exact List.mem_cons_of_mem _ h
    · simp [dbErase, hk] at h
      rcases h with h | h
      · simp [h]
      · exact List.mem_cons_of_mem _ (ih h)

/-- The in-memory effect of one edit, by branch. -/
theorem setOverride_eq (db : Store) (key : String) (name : Option String) :
    setOverride db key name =
      if pyStrip (name.getD "") ≠ "" then dbInsert db key (pyStrip (name.getD ""))
      else if (dbGet db key).isSome then dbErase db key
      else db := by
  by_cases h1 : pyStrip (name.getD "") ≠ ""
  · simp [setOverride, saveCustomName, save_device_database, h1]
  · by_cases h2 : (dbGet db key).isSome <;>
      simp [setOverride, saveCustomName, save_device_database, h1, h2]

/-- C10: loading the override store is total and never raises: a
missing file, undecodable JSON, or any other read error all yield the
empty store, and a well-formed file yields the stored mapping. -/
theorem load_device_database_total_c10 :
    (load_device_database .missing = []) ∧
    (load_device_database .badJson = []) ∧
    (load_device_database .readError = []) ∧
    (∀ db : Store, load_device_database (.good db) = db) :=
  ⟨rfl, rfl, rfl, fun _ => rfl⟩

/-- C1 counterexample: with an empty in-memory store, key
`"1234:ABCD"` and name `"My Mouse"`, a failing write leaves the
in-memory store mutated (not rolled back to `[]`) and reports no error
to the caller, while nothing reached durable storage — the all-or-nothing behaviour of the claim does not hold at this input. -/
theorem saveCustomName_persist_failure_cex_c1 :
    (saveCustomName [] "1234:ABCD" "My Mouse" false).db
        = [("1234:ABCD", "My Mouse")] ∧
    (saveCustomName [] "1234:ABCD" "My Mouse" false).err = none ∧
    (saveCustomName [] "1234:ABCD" "My Mouse" false).persisted = none := by
  decide

/-- C1 (amended): when persisting the updated store fails,
`_save_custom_name` keeps the updated in-memory store (identical to the
success case) and reports no error to the caller — the failure is only
logged inside `save_device_database`; nothing reaches durable storage. -/
theorem saveCustomName_persist_failure_c1 :
    ∀ (db : Store) (key name : String) (writeOk : Bool),
      (saveCustomName db key name writeOk).db
          = (saveCustomName db key name true).db ∧
      (saveCustomName db key name writeOk).err = none ∧
      (writeOk = false → (saveCustomName db key name writeOk).persisted = none) := by
  intro db key name writeOk
  by_cases h1 : name ≠ "" <;> by_cases h2 : (dbGet db key).isSome <;>
    cases writeOk <;>
      simp [saveCustomName, save_device_database, h1, h2]

/-- C1 witness for the amended theorem at a concrete input. -/
theorem saveCustomName_persist_failure_c1_witness :
    (saveCustomName [] "1234:ABCD" "My Mouse" false).persisted = none :=
  (saveCustomName_persist_failure_c1 [] "1234:ABCD" "My Mouse" false).2.2 rfl

/-- C2: `classifyStatus` evaluates its signals in order with the first
match winning: an explicit `present = false` gives `disabled`; else a
trimmed error code `"22"` gives `disabled`; else `"0"` gives `enabled`;
else a trimmed, upper-cased status text containing `"OK"` gives
`enabled`; else `unknown`. -/
theorem classifyStatus_precedence_c2 :
    ∀ (present : Option Bool) (errorCode statusText : Option String),
      (present = some false →
        classifyStatus present errorCode statusText = .disabled) ∧
      (present ≠ some false → pyStrip (errorCode.getD "") = "22" →
        classifyStatus present errorCode statusText = .disabled) ∧
      (present ≠ some false → pyStrip (errorCode.getD "") ≠ "22" →
        pyStrip (errorCode.getD "") = "0" →
        classifyStatus present errorCode statusText = .enabled) ∧
      (present ≠ some false → pyStrip (errorCode.getD "") ≠ "22" →
        pyStrip (errorCode.getD "") ≠ "0" →
        listContains ['O', 'K'] (pyUpper (pyStrip (statusText.getD ""))).toList = true →
        classifyStatus present errorCode statusText = .enabled) ∧
      (present ≠ some false → pyStrip (errorCode.getD "") ≠ "22" →
        pyStrip (errorCode.getD "") ≠ "0" →
        listContains ['O', 'K'] (pyUpper (pyStrip (statusText.getD ""))).toList = false →
        classifyStatus present errorCode statusText = .unknown) := by
  intro present errorCode statusText
  refine ⟨fun h1 => ?_, fun h1 h2 => ?_, fun h1 h2 h3 => ?_,
    fun h1 h2 h3 h4 => ?_, fun h1 h2 h3 h4 => ?_⟩ <;>
    simp [classifyStatus, h1] <;> simp_all

/-- C2 witness: the theorem applied at concrete signal values,
discharging each hypothesis there. -/
theorem classifyStatus_precedence_c2_witness :
    classifyStatus (some false) (some "0") (some "OK") = .disabled ∧
    classifyStatus none (some " 22 ") (some "OK") = .disabled ∧
    classifyStatus (some true) (some "0") none = .enabled ∧
    classifyStatus none none (some " ok ") = .enabled ∧
    classifyStatus none none none = .unknown :=
  ⟨(classifyStatus_precedence_c2 (some false) (some "0") (some "OK")).1 rfl,
   (classifyStatus_precedence_c2 none (some " 22 ") (some "OK")).2.1
     (by decide) (by decide),
   (classifyStatus_precedence_c2 (some true) (some "0") none).2.2.1
     (by decide) (by decide) (by decide),
   (classifyStatus_precedence_c2 none none (some " ok ")).2.2.2.1
     (by decide) (by decide) (by decide) (by decide),
   (classifyStatus_precedence_c2 none none none).2.2.2.2
     (by decide) (by decide) (by decide) (by decide)⟩

/-- C8: an override edit with a name that is non-empty after trimming
maps the key to the trimmed name; an empty (or absent) name removes the
key, and removing a non-existent key is a no-op that reports no error;
consequently, starting from a store with no empty values, no sequence
of edits ever maps a key to an empty value. -/
theorem setOverride_semantics_c8 :
    ∀ (db : Store) (key : String) (name : Option String),
      (pyStrip (name.getD "") ≠ "" →
        dbGet (setOverride db key name) key = some (pyStrip (name.getD ""))) ∧
      ((db.map Prod.fst).Nodup → pyStrip (name.getD "") = "" →
        dbGet (setOverride db key name) key = none) ∧
      (pyStrip (name.getD "") = "" → dbGet db key = none →
        setOverride db key name = db ∧
        ∀ writeOk, (saveCustomName db key (pyStrip (name.getD "")) writeOk).err
            = none) ∧
      (∀ ops : List (String × Option String),
        (∀ p ∈ db, p.2 ≠ "") →
        ∀ p ∈ ops.foldl (fun d op => setOverride d op.1 op.2) db, p.2 ≠ "") := by
  intro db key name
  refine ⟨fun h1 => ?_, fun hnd h1 => ?_, fun h1 h2 => ⟨?_, fun writeOk => ?_⟩, ?_⟩
  · rw [setOverride_eq, if_pos h1]
    exact dbGet_dbInsert_self db key _
  · rw [setOverride_eq, if_neg (fun hc => hc h1)]
    by_cases h2 : (dbGet db key).isSome
    · rw [if_pos h2]
      exact dbGet_dbErase_self key hnd
    · rw [if_neg h2]
      exact Option.not_isSome_iff_eq_none.mp h2
  · rw [setOverride_eq, if_neg (fun hc => hc h1), if_neg (by simp [h2])]
  · simp [saveCustomName, h1, h2]
  · -- preservation of the no-empty-value invariant under any edit sequence
    have step : ∀ (d : Store) (k : String) (n : Option String),
        (∀ p ∈ d, p.2 ≠ "") → ∀ p ∈ setOverride d k n, p.2 ≠ "" := by
      intro d k n hd p hp
      rw [setOverride_eq] at hp
      by_cases h1 : pyStrip (n.getD "") ≠ ""
      · rw [if_pos h1] at hp
        rcases mem_dbInsert hp with h | h
        · subst h
          exact h1
        · exact hd p h
      · rw [if_neg h1] at hp
        by_cases h2 : (dbGet d k).isSome
        · rw [if_pos h2] at hp
          exact hd p (mem_dbErase hp)
        · rw [if_neg h2] at hp
          exact hd p hp
    intro ops
    induction ops generalizing db with
    | nil => intro hdb; simpa using hdb
    | cons op rest ih =>
      intro hdb
      simpa using ih (setOverride db op.1 op.2) (step db op.1 op.2 hdb)

/-- C8 witness: the theorem applied at concrete stores and edits. -/
theorem setOverride_semantics_c8_witness :
    dbGet (setOverride [] "1234:ABCD" (some " My Mouse ")) "1234:ABCD"
        = some "My Mouse" ∧
    dbGet (setOverride [("1234:ABCD", "My Mouse")] "1234:ABCD" none) "1234:ABCD"
        = none ∧
    setOverride [("AAAA:BBBB", "Pad")] "1234:ABCD" (some "") = [("AAAA:BBBB", "Pad")] ∧
    ∀ p ∈ [("1111:2222", some "A"), ("1111:2222", none), ("3333:4444", some " B ")].foldl
        (fun d op => setOverride d op.1 op.2) ([] : Store), p.2 ≠ "" :=
  ⟨(setOverride_semantics_c8 [] "1234:ABCD" (some " My Mouse ")).1 (by decide),
   (setOverride_semantics_c8 [("1234:ABCD", "My Mouse")] "1234:ABCD" none).2.1
     (by decide) (by decide),
   ((setOverride_semantics_c8 [("AAAA:BBBB", "Pad")] "1234:ABCD" (some "")).2.2.1
     (by decide) (by decide)).1,
   (setOverride_semantics_c8 [] "x" none).2.2.2
     [("1111:2222", some "A"), ("1111:2222", none), ("3333:4444", some " B ")]
     (by simp)⟩

theorem append_ne_empty_right (a b : String) (hb : b ≠ "") : a ++ b ≠ "" := by
  intro h
  apply hb
  have hd := congrArg String.data h
  rw [String.data_append] at hd
  rcases List.append_eq_nil.mp hd with ⟨_, h2⟩
  exact String.ext h2

/-- C9: `selectDevice` re-selects the entry whose instance identifier
equals the previous one when such an entry is present (the first such,
via `find?`); otherwise the first entry of a non-empty directory; and
nothing for an empty directory.  Being a plain function of its two
arguments it is deterministic and side-effect-free. -/
theorem selectDevice_policy_c9 :
    ∀ (dir : List DeviceEntry) (prev : Option String),
      (∀ e ∈ dir, e.id ≠ "") →
      ((∃ p, prev = some p ∧ ∃ e ∈ dir, e.id = p) →
        selectDevice dir prev = dir.find? (fun d => d.id == prev.getD "") ∧
        ∃ e, selectDevice dir prev = some e ∧ some e.id = prev) ∧
      ((∀ e ∈ dir, some e.id ≠ prev) → dir ≠ [] →
        selectDevice dir prev = dir.head?) ∧
      (dir = [] → selectDevice dir prev = none) := by
  intro dir prev hids
  refine ⟨?_, ?_, ?_⟩
  · rintro ⟨p, rfl, e, he, hep⟩
    have hp : p ≠ "" := hep ▸ hids e he
    have htr : truthy (some p) = true := by simp [truthy, hp]
    have hany : dir.any (fun d => d.id == p) = true :=
      List.any_eq_true.mpr ⟨e, he, by simp [hep]⟩
    have hcond : (truthy (some p) && dir.any fun d => d.id == p) = true := by
      rw [htr, hany]
      rfl
    have hsel : selectDevice dir (some p) = dir.find? (fun d => d.id == p) := by
      simp only [selectDevice, Option.getD_some, hcond, if_true]
    refine ⟨by simpa using hsel, ?_⟩
    have hfind : (dir.find? (fun d => d.id == p)).isSome :=
      List.find?_isSome.mpr ⟨e, he, by simp [hep]⟩
    obtain ⟨e2, he2⟩ := Option.isSome_iff_exists.mp hfind
    refine ⟨e2, by rw [hsel, he2], ?_⟩
    have := List.find?_some he2
    simpa using (of_decide_eq_true (by simpa using this) : e2.id = p) ▸ rfl
  · intro hnone hne
    have hcond : (truthy prev && dir.any fun d => d.id == prev.getD "") = false := by
      cases prev with
      | none => simp [truthy]
      | some p =>
        by_cases hp : p = ""
        · simp [truthy, hp]
        · have : dir.any (fun d => d.id == p) = false := by
            rw [List.any_eq_false]
            intro e he
            have := hnone e he
            simp only [ne_eq, Option.some.injEq] at this
            simp [this]
          simp [this]
    have hemp : dir.isEmpty = false := by
      cases dir with
      | nil => exact absurd rfl hne
      | cons a t => rfl
    simp [selectDevice, hcond, hemp]
  · rintro rfl
    simp [selectDevice]

/-- C9 witness: concrete directories exercising each branch. -/
theorem selectDevice_policy_c9_witness :
    (selectDevice [entryOf [] ⟨"id1", some "zebra", none, []⟩,
        entryOf [] ⟨"id2", some "Apple", none, []⟩] (some "id2")
      = some (entryOf [] ⟨"id2", some "Apple", none, []⟩)) ∧
    (selectDevice [entryOf [] ⟨"id1", some "zebra", none, []⟩] (some "gone")
      = some (entryOf [] ⟨"id1", some "zebra", none, []⟩)) ∧
    selectDevice [] (some "id1") = none := by
  refine ⟨?_, ?_, ?_⟩
  · have h := (selectDevice_policy_c9
      [entryOf [] ⟨"id1", some "zebra", none, []⟩,
       entryOf [] ⟨"id2", some "Apple", none, []⟩] (some "id2")
      (by decide)).1 ⟨"id2", rfl, entryOf [] ⟨"id2", some "Apple", none, []⟩,
        by decide, by decide⟩
    rw [h.1]
    decide
  · have h := (selectDevice_policy_c9
      [entryOf [] ⟨"id1", some "zebra", none, []⟩] (some "gone")
      (by decide)).2.1 (by decide) (by decide)
    rw [h]
    decide
  · exact (selectDevice_policy_c9 [] (some "id1") (by decide)).2.2 rfl

/-- C5: for a retained record (truthy instance identifier), a store
with no empty values and name fields that are absent rather than empty,
the display name of the entry follows the override / friendly-name /
description / instance-identifier precedence with the key appended in
bracketed form, and is never empty; the end-to-end example of the spec
evaluates as stated. -/
theorem displayName_precedence_c5 :
    (∀ (db : Store) (r : RawDeviceRecord),
      (∀ p ∈ db, p.2 ≠ "") →
      r.friendlyName ≠ some "" →
      r.description ≠ some "" →
      r.instanceId ≠ "" →
      (entryOf db r).display_name = specDisplayName db r ∧
      (entryOf db r).display_name ≠ "") ∧
    (buildDirectory [⟨"USB\\VID_1234&PID_ABCD\\0", some "Mouse X", none, []⟩] []).map
        (fun e => e.display_name) = ["Mouse X [1234:ABCD]"] ∧
    classifyStatus (some false) none none = .disabled := by
  refine ⟨?_, by decide, by decide⟩
  intro db r hdb hf hd hid
  have hcust : ∀ nm, ((device_key r).bind fun k => dbGet db k) = some nm → nm ≠ "" := by
    intro nm hnm
    rcases Option.bind_eq_some.mp hnm with ⟨k, _, hget⟩
    exact hdb (k, nm) (dbGet_mem hget)
  have hbase :
      (if truthy ((device_key r).bind fun k => dbGet db k) = true then
          ((device_key r).bind fun k => dbGet db k).getD ""
        else if truthy r.friendlyName = true then r.friendlyName.getD ""
        else if truthy r.description = true then r.description.getD ""
        else r.instanceId) =
        (match (device_key r).bind fun k => dbGet db k with
          | some nm => nm
          | none =>
            match r.friendlyName with
            | some f => f
            | none =>
              match r.description with
              | some d => d
              | none => r.instanceId) ∧
      (match (device_key r).bind fun k => dbGet db k with
        | some nm => nm
        | none =>
          match r.friendlyName with
          | some f => f
          | none =>
            match r.description with
            | some d => d
            | none => r.instanceId) ≠ "" := by
    cases hc : (device_key r).bind fun k => dbGet db k with
    | some nm =>
      have hnm : nm ≠ "" := hcust nm hc
      simp [truthy, hnm]
    | none =>
      cases hfn : r.friendlyName with
      | some f =>
        have hfne : f ≠ "" := fun hh => hf (by rw [hfn, hh])
        simp [truthy, hfne]
      | none =>
        cases hdn : r.description with
        | some d =>
          have hdne : d ≠ "" := fun hh => hd (by rw [hdn, hh])
          simp [truthy, hdne]
        | none => simp [truthy, hid]
  constructor
  · show (entryOf db r).display_name = specDisplayName db r
    unfold entryOf specDisplayName
    cases hk : device_key r with
    | some k =>
      simp only [hk] at hbase ⊢
      rw [hbase.1]
    | none =>
      simp only [hk] at hbase ⊢
      rw [hbase.1]
  · show (entryOf db r).display_name ≠ ""
    unfold entryOf
    cases hk : device_key r with
    | some k =>
      simp only [hk]
      exact append_ne_empty_right _ "]" (by decide)
    | none =>
      simp only [hk] at hbase ⊢
      rw [hbase.1]
      exact hbase.2

/-- C5 witness: the precedence theorem applied to a concrete record and
store. -/
theorem displayName_precedence_c5_witness :
    (entryOf [("1234:ABCD", "My Mouse")]
        ⟨"USB\\VID_1234&PID_ABCD\\0", some "Mouse X", none, []⟩).display_name
      = specDisplayName [("1234:ABCD", "My Mouse")]
          ⟨"USB\\VID_1234&PID_ABCD\\0", some "Mouse X", none, []⟩ :=
  ((displayName_precedence_c5.1 [("1234:ABCD", "My Mouse")]
      ⟨"USB\\VID_1234&PID_ABCD\\0", some "Mouse X", none, []⟩
      (by decide) (by decide) (by decide) (by decide)).1)

theorem buildLoop_ids (db : Store) :
    ∀ (l : List RawDeviceRecord) (seen : List String),
      ((buildLoop db l seen).map (fun e => e.id)).Nodup ∧
      ∀ e ∈ buildLoop db l seen, e.id ∉ seen := by
  intro l
  induction l with
  | nil => intro seen; simp [buildLoop]
  | cons r t ih =>
    intro seen
    by_cases h1 : r.instanceId ∈ seen
    · simpa [buildLoop, h1] using ih seen
    · by_cases h2 : r.instanceId ≠ ""
      · have ih2 := ih (r.instanceId :: seen)
        have hstep : buildLoop db (r :: t) seen
            = entryOf db r :: buildLoop db t (r.instanceId :: seen) := by
          simp [buildLoop, h1, h2]
        rw [hstep]
        constructor
        · simp only [List.map_cons, List.nodup_cons]
          refine ⟨?_, ih2.1⟩
          intro hmem
          rcases List.mem_map.mp hmem with ⟨e, he, hid⟩
          have := ih2.2 e he
          rw [hid] at this
          exact this (List.mem_cons_self _ _)
        · intro e he
          rcases List.mem_cons.mp he with he | he
          · subst he
            exact h1
          · intro hmem
            exact (ih2.2 e he) (List.mem_cons_of_mem _ hmem)
      · have ih2 := ih (r.instanceId :: seen)
        have hstep : buildLoop db (r :: t) seen
            = buildLoop db t (r.instanceId :: seen) := by
          simp [buildLoop, h1, h2]
        rw [hstep]
        constructor
        · exact ih2.1
        · intro e he
          intro hmem
          exact (ih2.2 e he) (List.mem_cons_of_mem _ hmem)

theorem buildLoop_drop (db : Store) :
    ∀ (l1 : List RawDeviceRecord) (seen : List String) (r : RawDeviceRecord)
      (l2 : List RawDeviceRecord),
      (r.instanceId ∈ seen ∨ r.instanceId ∈ l1.map (fun x => x.instanceId)) →
      buildLoop db (l1 ++ r :: l2) seen = buildLoop db (l1 ++ l2) seen := by
  intro l1
  induction l1 with
  | nil =>
    intro seen r l2 h
    rcases h with h | h
    · simp [buildLoop, h]
    · simp at h
  | cons x t ih =>
    intro seen r l2 h
    have hnext : ∀ s2 : List String, (r.instanceId ∈ s2 ∨ x.instanceId ∈ s2) →
        (r.instanceId ∈ seen → r.instanceId ∈ s2) →
        (x.instanceId ∈ s2 ∨ True) → True := fun _ _ _ _ => trivial
    by_cases h1 : x.instanceId ∈ seen
    · have h2 : r.instanceId ∈ seen ∨ r.instanceId ∈ t.map (fun y => y.instanceId) := by
        rcases h with h | h
        · exact Or.inl h
        · simp only [List.map_cons, List.mem_cons] at h
          rcases h with h | h
          · exact Or.inl (h ▸ h1)
          · exact Or.inr h
      simp [buildLoop, h1, ih seen r l2 h2]
    · have h2 : r.instanceId ∈ (x.instanceId :: seen) ∨
          r.instanceId ∈ t.map (fun y => y.instanceId) := by
        rcases h with h | h
        · exact Or.inl (List.mem_cons_of_mem _ h)
        · simp only [List.map_cons, List.mem_cons] at h
          rcases h with h | h
          · exact Or.inl (by simp [h])
          · exact Or.inr h
      by_cases h3 : x.instanceId ≠ ""
      · simp [buildLoop, h1, h3, ih (x.instanceId :: seen) r l2 h2]
      · simp [buildLoop, h1, h3, ih (x.instanceId :: seen) r l2 h2]

/-- C6: the directory never contains two entries with the same
instance identifier; a record whose instance identifier already
occurred earlier in the input is silently dropped; and two records
sharing one (truthy) instance identifier yield exactly one entry. -/
theorem buildDirectory_dedup_c6 :
    (∀ (db : Store) (records : List RawDeviceRecord),
      ((buildDirectory records db).map (fun e => e.id)).Nodup) ∧
    (∀ (db : Store) (l1 : List RawDeviceRecord) (r : RawDeviceRecord)
        (l2 : List RawDeviceRecord),
      r.instanceId ∈ l1.map (fun x => x.instanceId) →
      buildDirectory (l1 ++ r :: l2) db = buildDirectory (l1 ++ l2) db) ∧
    (∀ (db : Store) (r1 r2 : RawDeviceRecord),
      r1.instanceId = r2.instanceId → r1.instanceId ≠ "" →
      (buildDirectory [r1, r2] db).length = 1) := by
  refine ⟨?_, ?_, ?_⟩
  · intro db records
    have hperm := (List.perm_insertionSort entLE (buildLoop db records [])).map
      (fun e => e.id)
    exact hperm.nodup_iff.mpr (buildLoop_ids db records []).1
  · intro db l1 r l2 h
    unfold buildDirectory
    rw [buildLoop_drop db l1 [] r l2 (Or.inr h)]
  · intro db r1 r2 heq hne
    simp [buildDirectory, buildLoop, hne, heq.symm, List.insertionSort,
      List.orderedInsert]

/-- C6 witness: two concrete records sharing an instance identifier
produce a single entry, and a concrete later duplicate is dropped. -/
theorem buildDirectory_dedup_c6_witness :
    (buildDirectory [⟨"idA", some "K1", none, []⟩, ⟨"idA", some "K2", none, []⟩]
        []).length = 1 ∧
    buildDirectory
        [⟨"idA", some "K1", none, []⟩, ⟨"idA", some "K2", none, []⟩]
        []
      = buildDirectory [⟨"idA", some "K1", none, []⟩] [] :=
  ⟨buildDirectory_dedup_c6.2.2 [] ⟨"idA", some "K1", none, []⟩
      ⟨"idA", some "K2", none, []⟩ rfl (by decide),
   buildDirectory_dedup_c6.2.1 [] [⟨"idA", some "K1", none, []⟩]
      ⟨"idA", some "K2", none, []⟩ [] (by decide)⟩

theorem lexLE_refl : ∀ l : List Char, lexLE l l = true := by
  intro l
  induction l with
  | nil => rfl
  | cons a t ih => simp [lexLE, lt_irrefl, ih]

theorem lexLE_total : ∀ a b : List Char, lexLE a b = true ∨ lexLE b a = true := by
  intro a
  induction a with
  | nil => intro b; exact Or.inl rfl
  | cons x s ih =>
    intro b
    cases b with
    | nil => exact Or.inr rfl
    | cons y t =>
      rcases lt_trichotomy x y with h | h | h
      · exact Or.inl (by simp [lexLE, h])
      · subst h
        rcases ih t with h2 | h2
        · exact Or.inl (by simp [lexLE, lt_irrefl, h2])
        · exact Or.inr (by simp [lexLE, lt_irrefl, h2])
      · exact Or.inr (by simp [lexLE, h])

theorem lexLE_trans :
    ∀ a b c : List Char, lexLE a b = true → lexLE b c = true → lexLE a c = true := by
  intro a
  induction a with
  | nil => intro b c _ _; rfl
  | cons x s ih =>
    intro b c hab hbc
    cases b with
    | nil => simp [lexLE] at hab
    | cons y t =>
      cases c with
      | nil => simp [lexLE] at hbc
      | cons z u =>
        rcases lt_trichotomy x y with h1 | h1 | h1
        · rcases lt_trichotomy y z with h2 | h2 | h2
          · simp [lexLE, lt_trans h1 h2]
          · subst h2
            simp [lexLE, h1]
          · simp [lexLE, h2, asymm h2] at hbc
        · subst h1
          rcases lt_trichotomy x z with h2 | h2 | h2
          · simp [lexLE, h2]
          · subst h2
            simp only [lexLE, lt_irrefl, if_false, ite_self, if_neg] at hab hbc ⊢
            exact ih t u hab hbc
          · simp [lexLE, h2, asymm h2] at hbc
        · simp [lexLE, h1, asymm h1] at hab

theorem filter_orderedInsert (k : List Char) (a : DeviceEntry) :
    ∀ l : List DeviceEntry,
      (List.orderedInsert entLE a l).filter (fun e => decide (nameKey e = k)) =
        if nameKey a = k then
          a :: l.filter (fun e => decide (nameKey e = k))
        else l.filter (fun e => decide (nameKey e = k)) := by
  intro l
  induction l with
  | nil =>
    by_cases hak : nameKey a = k <;> simp [List.orderedInsert, List.filter, hak]
  | cons b t ih =>
    by_cases hab : entLE a b
    · by_cases hak : nameKey a = k <;>
        simp [List.orderedInsert, hab, List.filter, hak]
    · have hba : nameKey b ≠ nameKey a := by
        intro he
        apply hab
        show lexLE (nameKey a) (nameKey b) = true
        rw [he]
        exact lexLE_refl _
      by_cases hak : nameKey a = k
      · have hbk : ¬ nameKey b = k := fun hh => hba (hh.trans hak.symm)
        simp [List.orderedInsert, hab, List.filter, hak, hbk, ih]
      · by_cases hbk : nameKey b = k <;>
          simp [List.orderedInsert, hab, List.filter, hak, hbk, ih]

theorem filter_insertionSort (k : List Char) :
    ∀ l : List DeviceEntry,
      (List.insertionSort entLE l).filter (fun e => decide (nameKey e = k)) =
        l.filter (fun e => decide (nameKey e = k)) := by
  intro l
  induction l with
  | nil => rfl
  | cons a t ih =>
    show (List.orderedInsert entLE a (List.insertionSort entLE t)).filter _ = _
    rw [filter_orderedInsert k a (List.insertionSort entLE t)]
    by_cases hak : nameKey a = k <;> simp [List.filter, hak, ih]

/-- C7: the directory is sorted by the case-insensitive comparison of
display names, and the sort is stable — for every key value, the
entries carrying that key appear in the same order as in the unsorted
loop output (which follows the original record order); the zebra/Apple example of the spec evaluates as stated. -/
theorem buildDirectory_sorted_stable_c7 :
    (∀ (db : Store) (records : List RawDeviceRecord),
      (buildDirectory records db).Sorted entLE) ∧
    (∀ (db : Store) (records : List RawDeviceRecord) (k : List Char),
      (buildDirectory records db).filter (fun e => decide (nameKey e = k)) =
        (buildLoop db records []).filter (fun e => decide (nameKey e = k))) ∧
    ((buildDirectory [⟨"id1", some "zebra", none, []⟩,
        ⟨"id2", some "Apple", none, []⟩] []).map (fun e => e.display_name)
      = ["Apple", "zebra"]) := by
  refine ⟨?_, ?_, by decide⟩
  · intro db records
    haveI : IsTotal DeviceEntry entLE := ⟨fun a b => lexLE_total _ _⟩
    haveI : IsTrans DeviceEntry entLE := ⟨fun a b c => lexLE_trans _ _ _⟩
    exact List.sorted_insertionSort entLE _
  · intro db records k
    exact filter_insertionSort k _

theorem matchKeyAt_isSome_iff (t0 t1 t2 : Char) (cs : List Char) :
    (matchKeyAt t0 t1 t2 cs).isSome = true ↔
      ∃ (a b c d1 d2 d3 d4 : Char) (post : List Char),
        cs = a :: b :: c :: '_' :: d1 :: d2 :: d3 :: d4 :: post ∧
        charIC a t0 = true ∧ charIC b t1 = true ∧ charIC c t2 = true ∧
        isHexChar d1 = true ∧ isHexChar d2 = true ∧ isHexChar d3 = true ∧
        isHexChar d4 = true := by
  rcases cs with _ | ⟨a, _ | ⟨b, _ | ⟨c, _ | ⟨u, _ | ⟨d1, _ | ⟨d2, _ | ⟨d3, _ | ⟨d4, post⟩⟩⟩⟩⟩⟩⟩⟩
  · simp [matchKeyAt]
  · simp [matchKeyAt]
  · simp [matchKeyAt]
  · simp [matchKeyAt]
  · simp [matchKeyAt]
  · simp [matchKeyAt]
  · simp [matchKeyAt]
  · simp [matchKeyAt]
  · by_cases hG : (charIC a t0 && charIC b t1 && charIC c t2 && (u == '_') &&
        isHexChar d1 && isHexChar d2 && isHexChar d3 && isHexChar d4) = true
    · have hG2 := hG
      simp only [Bool.and_eq_true, beq_iff_eq] at hG2
      obtain ⟨⟨⟨⟨⟨⟨⟨h1, h2⟩, h3⟩, hu⟩, h4⟩, h5⟩, h6⟩, h7⟩ := hG2
      subst hu
      constructor
      · intro _
        exact ⟨a, b, c, d1, d2, d3, d4, post, rfl, h1, h2, h3, h4, h5, h6, h7⟩
      · intro _
        simp [matchKeyAt, h1, h2, h3, h4, h5, h6, h7]
    · constructor
      · intro hs
        exfalso
        simp [matchKeyAt, hG] at hs
      · rintro ⟨a2, b2, c2, e1, e2, e3, e4, post2, heq, h1, h2, h3, h4, h5, h6, h7⟩
        exfalso
        apply hG
        simp only [List.cons.injEq] at heq
        obtain ⟨ha, hb, hc, hu, he1, he2, he3, he4, _⟩ := heq
        subst ha; subst hb; subst hc; subst hu
        subst he1; subst he2; subst he3; subst he4
        simp [h1, h2, h3, h4, h5, h6, h7]

theorem searchKey_isSome_iff (t0 t1 t2 : Char) :
    ∀ cs : List Char,
      (searchKey t0 t1 t2 cs).isSome = true ↔
        ∃ (pre : List Char) (a b c d1 d2 d3 d4 : Char) (post : List Char),
          cs = pre ++ a :: b :: c :: '_' :: d1 :: d2 :: d3 :: d4 :: post ∧
          charIC a t0 = true ∧ charIC b t1 = true ∧ charIC c t2 = true ∧
          isHexChar d1 = true ∧ isHexChar d2 = true ∧ isHexChar d3 = true ∧
          isHexChar d4 = true := by
  intro cs
  induction cs with
  | nil =>
    constructor
    · intro h
      simp [searchKey] at h
    · rintro ⟨pre, a, b, c, d1, d2, d3, d4, post, heq, -⟩
      exact absurd heq.symm (by simp)
  | cons x rest ih =>
    by_cases hm : (matchKeyAt t0 t1 t2 (x :: rest)).isSome = true
    · obtain ⟨g, hg⟩ := Option.isSome_iff_exists.mp hm
      have hL : (searchKey t0 t1 t2 (x :: rest)).isSome = true := by
        simp [searchKey, hg]
      rw [hL]
      rcases (matchKeyAt_isSome_iff t0 t1 t2 (x :: rest)).mp hm with
        ⟨a, b, c, d1, d2, d3, d4, post, heq, h1, h2, h3, h4, h5, h6, h7⟩
      simp only [true_iff]
      exact ⟨[], a, b, c, d1, d2, d3, d4, post, by simpa using heq,
        h1, h2, h3, h4, h5, h6, h7⟩
    · have hnone : matchKeyAt t0 t1 t2 (x :: rest) = none :=
        Option.not_isSome_iff_eq_none.mp hm
      have hL : searchKey t0 t1 t2 (x :: rest) = searchKey t0 t1 t2 rest := by
        simp [searchKey, hnone]
      rw [hL, ih]
      constructor
      · rintro ⟨pre, a, b, c, d1, d2, d3, d4, post, heq, h1, h2, h3, h4, h5, h6, h7⟩
        exact ⟨x :: pre, a, b, c, d1, d2, d3, d4, post, by simp [heq],
          h1, h2, h3, h4, h5, h6, h7⟩
      · rintro ⟨pre, a, b, c, d1, d2, d3, d4, post, heq, h1, h2, h3, h4, h5, h6, h7⟩
        cases pre with
        | nil =>
          exfalso
          apply hm
          apply (matchKeyAt_isSome_iff t0 t1 t2 (x :: rest)).mpr
          exact ⟨a, b, c, d1, d2, d3, d4, post, by simpa using heq,
            h1, h2, h3, h4, h5, h6, h7⟩
        | cons p pre2 =>
          simp only [List.cons_append, List.cons.injEq] at heq
          exact ⟨pre2, a, b, c, d1, d2, d3, d4, post, heq.2,
            h1, h2, h3, h4, h5, h6, h7⟩

theorem matchKeyAt_some_shape {t0 t1 t2 : Char} {cs g : List Char}
    (h : matchKeyAt t0 t1 t2 cs = some g) :
    ∃ d1 d2 d3 d4 : Char, g = [d1, d2, d3, d4] := by
  rcases cs with _ | ⟨a, _ | ⟨b, _ | ⟨c, _ | ⟨u, _ | ⟨d1, _ | ⟨d2, _ | ⟨d3, _ | ⟨d4, post⟩⟩⟩⟩⟩⟩⟩⟩ <;>
    simp [matchKeyAt] at h
  rcases h with ⟨-, hg⟩
  exact ⟨d1, d2, d3, d4, hg.symm⟩

theorem searchKey_some_shape {t0 t1 t2 : Char} :
    ∀ {cs g : List Char}, searchKey t0 t1 t2 cs = some g →
      ∃ d1 d2 d3 d4 : Char, g = [d1, d2, d3, d4] := by
  intro cs
  induction cs with
  | nil => intro g h; simp [searchKey] at h
  | cons x rest ih =>
    intro g h
    rw [searchKey] at h
    cases hm : matchKeyAt t0 t1 t2 (x :: rest) with
    | some g2 =>
      rw [hm] at h
      cases h
      exact matchKeyAt_some_shape hm
    | none =>
      rw [hm] at h
      exact ih h

theorem truthy_of_searchKey_some {t0 t1 t2 : Char} {cs g : List Char}
    (h : searchKey t0 t1 t2 cs = some g) :
    truthy (some (String.mk (g.map Char.toUpper))) = true := by
  obtain ⟨d1, d2, d3, d4, hg⟩ := searchKey_some_shape h
  subst hg
  simp [truthy]
  intro hc
  have := congrArg String.data hc
  simp at this

/-- Unfolding: `extract_vid_pid` written out as the pair of mapped searches. -/
theorem extract_vid_pid_eq (s : String) :
    extract_vid_pid s =
      ((searchKey 'V' 'I' 'D' s.toList).map
          (fun g => String.mk (g.map Char.toUpper)),
        (searchKey 'P' 'I' 'D' s.toList).map
          (fun g => String.mk (g.map Char.toUpper))) := rfl

/-- Fact: `extractKey` is `none` exactly when the two halves are not both
truthily present. -/
theorem extractKey_eq_none_iff (s : String) :
    extractKey s = none ↔
      (truthy (extract_vid_pid s).1 && truthy (extract_vid_pid s).2) = false := by
  unfold extractKey
  rw [extract_vid_pid_eq]
  cases hv : searchKey 'V' 'I' 'D' s.toList with
  | none => simp [truthy]
  | some gv =>
    cases hp : searchKey 'P' 'I' 'D' s.toList with
    | none => simp [truthy]
    | some gp =>
      have hv2 := truthy_of_searchKey_some hv
      have hp2 := truthy_of_searchKey_some hp
      simp [hv2, hp2]

/-- Fact: `extractKey` produces exactly the upper-cased pair of the two
leftmost matches. -/
theorem extractKey_eq_some_iff (s : String) (v p : String) :
    extractKey s = some (v, p) ↔
      (searchKey 'V' 'I' 'D' s.toList).map
          (fun g => String.mk (g.map Char.toUpper)) = some v ∧
      (searchKey 'P' 'I' 'D' s.toList).map
          (fun g => String.mk (g.map Char.toUpper)) = some p := by
  unfold extractKey
  rw [extract_vid_pid_eq]
  cases hv : searchKey 'V' 'I' 'D' s.toList with
  | none => simp
  | some gv =>
    cases hp : searchKey 'P' 'I' 'D' s.toList with
    | none => simp
    | some gp =>
      have hv2 := truthy_of_searchKey_some hv
      have hp2 := truthy_of_searchKey_some hp
      simp [hv2, hp2, Prod.ext_iff, eq_comm]

/-- C3: `extractKey` succeeds exactly when the input contains, anywhere
and independently, a case-insensitive `VID_` followed by exactly four
hex digits and a case-insensitive `PID_` followed by exactly four hex
digits; it is `none` when either pattern is missing (in particular for
a string with only one of VID/PID, or digit runs that are too short);
on the example inputs of the spec it returns exactly `("AB12", "CD34")`. -/
theorem extractKey_characterisation_c3 :
    (∀ s : String, (extractKey s).isSome = true ↔
        (HasKeyPattern 'V' 'I' 'D' s ∧ HasKeyPattern 'P' 'I' 'D' s)) ∧
    (∀ s : String,
      (¬ HasKeyPattern 'V' 'I' 'D' s ∨ ¬ HasKeyPattern 'P' 'I' 'D' s) →
        extractKey s = none) ∧
    extractKey "VID_ab12&PID_cd34" = some ("AB12", "CD34") ∧
    extractKey "vid_ab12&pid_cd34" = some ("AB12", "CD34") ∧
    extractKey "Vid_aB12&pId_Cd34" = some ("AB12", "CD34") ∧
    extractKey "xxVID_AB12&&yyPID_CD34zz" = some ("AB12", "CD34") ∧
    extractKey "VID_ab12" = none ∧
    extractKey "PID_cd34" = none ∧
    extractKey "VID_ab1&PID_cd34" = none := by
  have hiff : ∀ s : String, (extractKey s).isSome = true ↔
      (HasKeyPattern 'V' 'I' 'D' s ∧ HasKeyPattern 'P' 'I' 'D' s) := by
    intro s
    unfold HasKeyPattern
    rw [← searchKey_isSome_iff, ← searchKey_isSome_iff]
    unfold extractKey
    rw [extract_vid_pid_eq]
    cases hv : searchKey 'V' 'I' 'D' s.toList with
    | none => simp
    | some gv =>
      cases hp : searchKey 'P' 'I' 'D' s.toList with
      | none => simp
      | some gp =>
        have hv2 := truthy_of_searchKey_some hv
        have hp2 := truthy_of_searchKey_some hp
        simp [hv2, hp2]
  refine ⟨hiff, ?_, by decide, by decide, by decide, by decide, by decide,
    by decide, by decide⟩
  intro s h
  rw [← Option.not_isSome_iff_eq_none]
  intro hs
  rcases h with h | h
  · exact h ((hiff s).mp hs).1
  · exact h ((hiff s).mp hs).2

/-- C3 witness: the characterisation applied at a concrete input, with
the pattern hypotheses discharged by explicit decompositions. -/
theorem extractKey_characterisation_c3_witness :
    (extractKey "VID_ab12&PID_cd34").isSome = true :=
  (extractKey_characterisation_c3.1 "VID_ab12&PID_cd34").mpr
    ⟨⟨[], 'V', 'I', 'D', 'a', 'b', '1', '2',
        ['&', 'P', 'I', 'D', '_', 'c', 'd', '3', '4'],
        by decide, by decide, by decide, by decide, by decide, by decide,
        by decide, by decide⟩,
      ⟨['V', 'I', 'D', '_', 'a', 'b', '1', '2', '&'], 'P', 'I', 'D', 'c', 'd', '3', '4',
        [], by decide, by decide, by decide, by decide, by decide, by decide,
        by decide, by decide⟩⟩

/-- Fact: `keyOfPair` of a single extraction agrees with `extractKey`. -/
theorem keyOfPair_extract (h : String) :
    keyOfPair (extract_vid_pid h)
      = (extractKey h).map (fun k => k.1 ++ ":" ++ k.2) := by
  unfold keyOfPair extractKey
  rcases hvp : extract_vid_pid h with ⟨ov, op⟩
  cases ov with
  | none => simp [truthy]
  | some v =>
    cases op with
    | none => simp [truthy]
    | some p =>
      by_cases hb : (truthy (some v) && truthy (some p)) = true
      · simp [hb]
      · have hb2 : (truthy (some v) && truthy (some p)) = false :=
          eq_false_of_ne_true hb
        simp [hb2]

theorem hwLoop_keyOfPair :
    ∀ l : List String, l ≠ [] → ∀ vp : Option String × Option String,
      keyOfPair (hwLoop vp l) =
        (l.findSome? extractKey).map (fun k => k.1 ++ ":" ++ k.2) := by
  intro l
  induction l with
  | nil => intro h; exact absurd rfl h
  | cons x t ih =>
    intro _ vp
    by_cases hb : (truthy (extract_vid_pid x).1 && truthy (extract_vid_pid x).2) = true
    · have hnone : ¬ extractKey x = none := by
        rw [extractKey_eq_none_iff, hb]
        simp
      obtain ⟨k, hk⟩ := Option.ne_none_iff_exists'.mp hnone
      have hloop : hwLoop vp (x :: t) = extract_vid_pid x := by
        simp [hwLoop, hb]
      rw [hloop, keyOfPair_extract, hk]
      simp [List.findSome?_cons, hk]
    · have hb2 : (truthy (extract_vid_pid x).1 && truthy (extract_vid_pid x).2) = false :=
        eq_false_of_ne_true hb
      have hnone : extractKey x = none := (extractKey_eq_none_iff x).mpr hb2
      have hloop : hwLoop vp (x :: t) = hwLoop (extract_vid_pid x) t := by
        simp [hwLoop, hb2]
      rw [hloop]
      cases t with
      | nil =>
        show keyOfPair (extract_vid_pid x) = _
        rw [keyOfPair_extract, hnone]
        simp [List.findSome?_cons, hnone]
      | cons y u =>
        rw [ih (by simp) (extract_vid_pid x)]
        simp [List.findSome?_cons, hnone]

/-- C4: the device key computed by the enumeration loop equals the
derivation of the specification — `extractKey` on the instance identifier
first and, only when that yields no pair, the first hardware identifier
yielding a pair — rendered as the `"VID:PID"` string; the key is absent
when no identifier yields a pair. -/
theorem device_key_refines_c4 :
    ∀ r : RawDeviceRecord,
      device_key r = (specDeriveKey r).map (fun k => k.1 ++ ":" ++ k.2) := by
  intro r
  unfold device_key specDeriveKey computeVidPid
  by_cases hid : r.instanceId ≠ ""
  · have hvp : instVidPid r = extract_vid_pid r.instanceId := if_pos hid
    rw [hvp]
    by_cases hb : (truthy (extract_vid_pid r.instanceId).1 &&
        truthy (extract_vid_pid r.instanceId).2) = true
    · have hnone : ¬ extractKey r.instanceId = none := by
        rw [extractKey_eq_none_iff, hb]
        simp
      obtain ⟨k, hk⟩ := Option.ne_none_iff_exists'.mp hnone
      rw [hb, hk]
      simp only [Bool.not_true, Bool.false_and, Bool.false_eq_true, if_false,
        ite_false]
      rw [keyOfPair_extract, hk]
    · have hb2 : (truthy (extract_vid_pid r.instanceId).1 &&
          truthy (extract_vid_pid r.instanceId).2) = false := eq_false_of_ne_true hb
      have hnone : extractKey r.instanceId = none :=
        (extractKey_eq_none_iff _).mpr hb2
      rw [hb2, hnone]
      cases hl : r.hardwareIds with
      | nil =>
        simp only [List.isEmpty_nil, Bool.not_true, Bool.not_false, Bool.true_and,
          Bool.and_false, Bool.false_eq_true, if_false, ite_false]
        rw [keyOfPair_extract, hnone]
        simp
      | cons y u =>
        simp only [List.isEmpty_cons, Bool.not_false, Bool.not_true, Bool.true_and,
          Bool.and_true, if_pos]
        exact hwLoop_keyOfPair (y :: u) (by simp) _
  · have hvp : instVidPid r = (none, none) := if_neg hid
    have hid2 : r.instanceId = "" := not_not.mp hid
    have hEK : extractKey r.instanceId = none := by rw [hid2]; rfl
    rw [hvp, hEK]
    cases hl : r.hardwareIds with
    | nil =>
      simp only [truthy, Bool.false_and, Bool.not_false, List.isEmpty_nil,
        Bool.not_true, Bool.and_false, Bool.false_eq_true, if_false, ite_false]
      simp [keyOfPair, truthy]
    | cons y u =>
      simp only [truthy, Bool.false_and, Bool.not_false, List.isEmpty_cons,
        Bool.true_and, if_pos]
      exact hwLoop_keyOfPair (y :: u) (by simp) _

end USBDisc
